import Mathlib

/-!
Verification of the competition-results HTML extraction pipeline in
`html_to_xlsx_v2.py`: encoding resolution, table location, block
segmentation, participant classification, aggregation across files and
report-time sort keys.  Python strings are modelled as lists of
characters (code points); byte buffers as lists of naturals below 256.
-/

/-- Python strings, modelled as lists of code points. -/
abbrev Str := List Char

/-- Whitespace recognised by Python `str.strip()` and by the regex class
`\s`, restricted to ASCII whitespace plus the no-break space. -/
def isWs (c : Char) : Bool :=
  c = ' ' || c = '\t' || c = '\n' || c = '\r' || c = '\x0b' || c = '\x0c' || c = '\u00A0'

/-- Python `str.strip()`: drop whitespace from both ends.  This also models
`get_text(strip=True)` on a cell holding a single text node. -/
def strip (s : Str) : Str :=
  ((s.dropWhile isWs).reverse.dropWhile isWs).reverse

/-- Python `str.lower()`, restricted to ASCII letters and the basic
Cyrillic block actually reachable through this program's inputs. -/
def lowerChar (c : Char) : Char :=
  if 'A' ≤ c ∧ c ≤ 'Z' then Char.ofNat (c.toNat + 32)
  else if 'А' ≤ c ∧ c ≤ 'Я' then Char.ofNat (c.toNat + 32)
  else if c = 'Ё' then 'ё'
  else c

/-- Python `str.lower()` on a whole string. -/
def pyLower (s : Str) : Str := s.map lowerChar

/-- Python `str.isdigit()`: nonempty and all digits (ASCII digits). -/
def isdigitStr (s : Str) : Bool := !s.isEmpty && s.all Char.isDigit

/-- Python `int(...)` on a digit string. -/
def digitsVal (s : Str) : Nat := s.foldl (fun a c => 10 * a + (c.toNat - 48)) 0

/-- Python `x in y` substring containment. -/
def hasSub [BEq α] (n : List α) : List α → Bool
  | [] => n.isEmpty
  | c :: rest => List.isPrefixOf n (c :: rest) || hasSub n rest

/-- Non-finish marker substrings of the classifier (line 210 of the source). -/
def needles : List Str :=
  [ "н/ф".data, "в/к".data, "дск".data, "снят".data, "снт".data, "дисквал".data]

/-- The retired sentinel `'Сошел'`. -/
def ruSoshel : Str := "Сошел".data

/-- The mojibake marker substring `'пїЅ'` (line 213 of the source). -/
def garbledMark : Str := "пїЅ".data

/-- One probe of the place scan, lines 199-215 of the source: `some p`
means a rule matched and the scan stops with place `p`; `none` means the
scan continues with the next lower index. -/
def checkCell (raw : Str) : Option Str :=
  if (strip raw).isEmpty || (strip raw).contains ':' then none
  else if isdigitStr (strip raw) ∧ (strip raw).length = 4 ∧
      1900 ≤ digitsVal (strip raw) ∧ digitsVal (strip raw) ≤ 2100 then none
  else if isdigitStr (strip raw) then some (strip raw)
  else if needles.any (fun n => hasSub n (pyLower (strip raw))) then some ruSoshel
  else if hasSub garbledMark (strip raw) then some ruSoshel
  else none

/-- The place scan `for j in range(len(participant_cells)-1, 3, -1)`: probes
the cells at indices from the last one down to 4, first match wins. -/
def placeScan (pcells : List Str) : Option Str :=
  ((pcells.drop 4).reverse).findSome? checkCell

/-- Classification of one participant block into a `(team, place)` pair or
nothing, lines 190-221 of the source: blocks whose first cell is not a pure
digit string are dropped, the team is the cell at fixed offset 3, and when
the scan finds nothing a non-empty team defaults the place to `'Сошел'`. -/
def classifyBlock (pcells : List Str) : Option (Str × Str) :=
  if ¬ isdigitStr (strip (pcells.getD 0 [])) then none
  else
    match (match placeScan pcells with
           | some p => some p
           | none =>
             if ¬ (strip (pcells.getD 3 [])).isEmpty then some ruSoshel
             else none) with
    | some p =>
      if ¬ (strip (pcells.getD 3 [])).isEmpty ∧ ¬ p.isEmpty then
        some (strip (pcells.getD 3 []), p)
      else none
    | none => none

/-- Step (block width) detection, lines 173-178 of the source: the first
index in `range(8, min(15, len(cells)))` whose stripped cell text is `"2"`,
default 10.  The value is packaged with its positivity (a found index is at
least 8), which the segmentation loop's termination requires. -/
def findStepP (cells : List Str) : { n : Nat // 0 < n } :=
  match h : (List.range' 8 (min 15 cells.length - 8)).find?
      (fun i => strip (cells.getD i []) == ['2']) with
  | some i => ⟨i, by
      have hmem := List.mem_of_find?_eq_some h
      have := List.mem_range'_1.mp hmem
      omega⟩
  | none => ⟨10, by omega⟩

/-- Detected step as a plain natural number. -/
def findStep (cells : List Str) : Nat := (findStepP cells).1

/-- Segmentation loop, lines 180-223 of the source: `remaining` stands for
`cells[i:]`.  Stops when fewer than 4 cells remain; a block is the next
`min(step, remaining)` cells; every iteration advances by a full step. -/
def segmentLoop (step : Nat) (hstep : 0 < step) (remaining : List Str) :
    List (Str × Str) :=
  if _h4 : remaining.length < 4 then []
  else
    (match classifyBlock (remaining.take (min step remaining.length)) with
     | some pr => [pr]
     | none => []) ++ segmentLoop step hstep (remaining.drop step)
termination_by remaining.length
decreasing_by simp only [List.length_drop]; omega

/-- A table row: whether it carries `bgcolor="silver"` and its `td` texts. -/
structure Row where
  silver : Bool
  cells : List Str
deriving DecidableEq

/-- Qualification test `table.find('tr', bgcolor='silver')`, line 154. -/
def tableQualifies (t : List Row) : Bool := t.any (·.silver)

/-- Data-row test, lines 161-164: nonempty, at least 10 cells, and the
first cell's stripped text is exactly `"1"`. -/
def isDataRow (r : Row) : Bool :=
  !r.cells.isEmpty && decide (10 ≤ r.cells.length) &&
    (strip (r.cells.getD 0 []) == ['1'])

/-- Canonical data row: first row of the table satisfying `isDataRow`. -/
def findDataRow (t : List Row) : Option Row := t.find? isDataRow

/-- Pairs contributed by one table, lines 153-223: nothing without a silver
header row or without a canonical data row. -/
def tableResults (t : List Row) : List (Str × Str) :=
  if tableQualifies t then
    match findDataRow t with
    | some r => segmentLoop (findStepP r.cells).1 (findStepP r.cells).2 r.cells
    | none => []
  else []

/-- A parsed document: its list of tables. -/
abbrev Doc := List (List Row)

/-- Pairs contributed by one parsed document (`for table in tables`). -/
def docResults (doc : Doc) : List (Str × Str) :=
  (doc.map tableResults).flatten

/-- Aggregation over the input file list, lines 235-250 of the source:
paths whose file does not exist are skipped, the remaining files are parsed
in order and their pairs appended.  The filesystem is modelled as a partial
map from path to parsed document. -/
def processFiles (fs : Str → Option Doc) : List Str → List (Str × Str)
  | [] => []
  | p :: rest =>
    match fs p with
    | none => processFiles fs rest
    | some doc => docResults doc ++ processFiles fs rest

/-- The aggregated `teams_data` mapping: the places recorded for one team,
in append order. -/
def teamPlaces (pairs : List (Str × Str)) (team : Str) : List Str :=
  (pairs.filter (fun pr => pr.1 == team)).map (·.2)

/-- Backtracking match of the regex tail `\s*(.+)$` against the text that
follows `<digits>.`: returns the group-2 capture, or `none` on no match.
The anchor `$` also matches just before one trailing newline; `.` never
matches a newline; `\s*` gives back one character when the greedy take
would leave `(.+)` empty. -/
def restMatch (r : Str) : Option Str :=
  let r1 := if r.getLast? == some '\n' then r.dropLast else r
  if r1.isEmpty then none
  else
    let w := r1.takeWhile isWs
    let body := r1.drop (min w.length (r1.length - 1))
    if body.contains '\n' then none else some body

/-- Sort-key extraction, lines 228-232 of the source:
`re.match(r'^(\d+)\.\s*(.+)$', team_name)` gives `(number, lower rest)`;
everything else gives `(∞, lower name)`, with `none` standing for `inf`. -/
def extract_sort_key (name : Str) : Option Nat × Str :=
  match name.drop (name.takeWhile Char.isDigit).length with
  | c :: r =>
    if c = '.' ∧ ¬ (name.takeWhile Char.isDigit).isEmpty then
      match restMatch r with
      | some body => (some (digitsVal (name.takeWhile Char.isDigit)), pyLower body)
      | none => (none, pyLower name)
    else (none, pyLower name)
  | [] => (none, pyLower name)

/-- Python `<` on the numeric key component, `none` playing `float('inf')`. -/
def numLt : Option Nat → Option Nat → Bool
  | some a, some b => decide (a < b)
  | some _, none => true
  | none, _ => false

/-- Python `<=` on strings: lexicographic by code point. -/
def strLe : Str → Str → Bool
  | [], _ => true
  | _ :: _, [] => false
  | a :: s, b :: t => decide (a < b) || (a == b && strLe s t)

/-- Python `<=` on sort-key tuples, lexicographic. -/
def keyLe (a b : Option Nat × Str) : Bool :=
  numLt a.1 b.1 || (a.1 == b.1 && strLe a.2 b.2)

/-- Stable ordered insertion by sort key. -/
def insertTeam (a : Str) : List Str → List Str
  | [] => [a]
  | b :: rest =>
    if keyLe (extract_sort_key a) (extract_sort_key b) then a :: b :: rest
    else b :: insertTeam a rest

/-- Stable sort modelling `sorted(teams_data.keys(), key=extract_sort_key)`
on line 278 of the source. -/
def sortTeams : List Str → List Str
  | [] => []
  | a :: rest => insertTeam a (sortTeams rest)

/-- Candidate encodings of the resolver. -/
inductive Enc
  | cp1251
  | utf8
  | koi8r
  | latin1
deriving DecidableEq

/-- Decoding table for cp1251 bytes 128-255; the value 65534 marks the
undefined byte 0x98 (mirroring the CPython codec convention). -/
def cp1251Hi : List Nat :=
  [1026, 1027, 8218, 1107, 8222, 8230, 8224, 8225, 8364, 8240, 1033, 8249, 1034, 1036, 1035, 1039,
    1106, 8216, 8217, 8220, 8221, 8226, 8211, 8212, 65534, 8482, 1113, 8250, 1114, 1116, 1115, 1119,
    160, 1038, 1118, 1032, 164, 1168, 166, 167, 1025, 169, 1028, 171, 172, 173, 174, 1031,
    176, 177, 1030, 1110, 1169, 181, 182, 183, 1105, 8470, 1108, 187, 1112, 1029, 1109, 1111,
    1040, 1041, 1042, 1043, 1044, 1045, 1046, 1047, 1048, 1049, 1050, 1051, 1052, 1053, 1054, 1055,
    1056, 1057, 1058, 1059, 1060, 1061, 1062, 1063, 1064, 1065, 1066, 1067, 1068, 1069, 1070, 1071,
    1072, 1073, 1074, 1075, 1076, 1077, 1078, 1079, 1080, 1081, 1082, 1083, 1084, 1085, 1086, 1087,
    1088, 1089, 1090, 1091, 1092, 1093, 1094, 1095, 1096, 1097, 1098, 1099, 1100, 1101, 1102, 1103
  ]

/-- Decoding table for koi8-r bytes 128-255 (a total mapping). -/
def koi8rHi : List Nat :=
  [9472, 9474, 9484, 9488, 9492, 9496, 9500, 9508, 9516, 9524, 9532, 9600, 9604, 9608, 9612, 9616,
    9617, 9618, 9619, 8992, 9632, 8729, 8730, 8776, 8804, 8805, 160, 8993, 176, 178, 183, 247,
    9552, 9553, 9554, 1105, 9555, 9556, 9557, 9558, 9559, 9560, 9561, 9562, 9563, 9564, 9565, 9566,
    9567, 9568, 9569, 1025, 9570, 9571, 9572, 9573, 9574, 9575, 9576, 9577, 9578, 9579, 9580, 169,
    1102, 1072, 1073, 1094, 1076, 1077, 1092, 1075, 1093, 1080, 1081, 1082, 1083, 1084, 1085, 1086,
    1087, 1103, 1088, 1089, 1090, 1091, 1078, 1074, 1100, 1099, 1079, 1096, 1101, 1097, 1095, 1098,
    1070, 1040, 1041, 1062, 1044, 1045, 1060, 1043, 1061, 1048, 1049, 1050, 1051, 1052, 1053, 1054,
    1055, 1071, 1056, 1057, 1058, 1059, 1046, 1042, 1068, 1067, 1047, 1064, 1069, 1065, 1063, 1066
  ]

/-- Single-byte cp1251 decoding: ASCII is identity, high bytes go through
the table, the undefined byte fails. -/
def cp1251DecodeByte (b : Nat) : Option Nat :=
  if b < 128 then some b
  else
    let v := cp1251Hi.getD (b - 128) 65534
    if v = 65534 then none else some v

/-- Single-byte koi8-r decoding: total on bytes. -/
def koi8rDecodeByte (b : Nat) : Option Nat :=
  if b < 128 then some b
  else if b < 256 then some (koi8rHi.getD (b - 128) 65534)
  else none

/-- Single-byte latin-1 decoding: the identity on all bytes. -/
def latin1DecodeByte (b : Nat) : Option Nat :=
  if b < 256 then some b else none

/-- Decode a byte buffer with a single-byte codec; any undecodable byte
fails the whole buffer (Python strict decoding). -/
def decodeWith (f : Nat → Option Nat) : List Nat → Option (List Nat)
  | [] => some []
  | b :: rest => (f b).bind fun c => (decodeWith f rest).map (c :: ·)

/-- Strict UTF-8 decoding (Python `bytes.decode('utf-8')`). -/
def utf8Decode : List Nat → Option (List Nat)
  | [] => some []
  | b :: rest =>
    if b < 0x80 then (utf8Decode rest).map (b :: ·)
    else if b < 0xc2 then none
    else if b < 0xe0 then
      match rest with
      | b2 :: rest2 =>
        if 0x80 ≤ b2 ∧ b2 < 0xc0 then
          (utf8Decode rest2).map (((b - 0xc0) * 0x40 + (b2 - 0x80)) :: ·)
        else none
      | [] => none
    else if b < 0xf0 then
      match rest with
      | b2 :: b3 :: rest3 =>
        if ((if b = 0xe0 then 0xa0 else 0x80) ≤ b2 ∧
              b2 < (if b = 0xed then 0xa0 else 0xc0)) ∧
            (0x80 ≤ b3 ∧ b3 < 0xc0) then
          (utf8Decode rest3).map
            (((b - 0xe0) * 0x1000 + (b2 - 0x80) * 0x40 + (b3 - 0x80)) :: ·)
        else none
      | _ => none
    else if b < 0xf5 then
      match rest with
      | b2 :: b3 :: b4 :: rest4 =>
        if ((if b = 0xf0 then 0x90 else 0x80) ≤ b2 ∧
              b2 < (if b = 0xf4 then 0x90 else 0xc0)) ∧
            (0x80 ≤ b3 ∧ b3 < 0xc0) ∧ (0x80 ≤ b4 ∧ b4 < 0xc0) then
          (utf8Decode rest4).map
            (((b - 0xf0) * 0x40000 + (b2 - 0x80) * 0x1000 +
                (b3 - 0x80) * 0x40 + (b4 - 0x80)) :: ·)
        else none
      | _ => none
    else none
termination_by l => l.length
decreasing_by all_goals simp +arith

/-- Header sniffing `raw_data[:1000].decode('ascii', errors='ignore').lower()`:
keep the 7-bit bytes of the first 1000 and lower-case them. -/
def headerText (raw : List Nat) : List Nat :=
  ((raw.take 1000).filter (· < 128)).map
    (fun b => if 65 ≤ b ∧ b ≤ 90 then b + 32 else b)

/-- Code points of an ASCII literal, for the charset tokens. -/
def asciiCodes (s : String) : List Nat := s.data.map Char.toNat

/-- Declared-charset detection, lines 124-130 of the source. -/
def declaredEnc (raw : List Nat) : Option Enc :=
  let h := headerText raw
  if hasSub (asciiCodes "charset=windows-1251") h ||
      hasSub (asciiCodes "charset=cp1251") h then some Enc.cp1251
  else if hasSub (asciiCodes "charset=utf-8") h then some Enc.utf8
  else if hasSub (asciiCodes "charset=koi8-r") h then some Enc.koi8r
  else none

/-- Decoding a buffer with one candidate. -/
def decode : Enc → List Nat → Option (List Nat)
  | Enc.cp1251 => decodeWith cp1251DecodeByte
  | Enc.utf8 => utf8Decode
  | Enc.koi8r => decodeWith koi8rDecodeByte
  | Enc.latin1 => decodeWith latin1DecodeByte

/-- The candidate list `encodings_to_try`, lines 132-135 of the source:
the declared encoding first (if any), then the fixed fallback order. -/
def encodingsFor (raw : List Nat) : List Enc :=
  (match declaredEnc raw with
   | some e => [e]
   | none => []) ++ [Enc.cp1251, Enc.utf8, Enc.koi8r, Enc.latin1]

/-- Replacement-marker count `content.count(u-fffd)`. -/
def countRepl (txt : List Nat) : Nat := txt.count 0xfffd

/-- The decode loop of lines 137-144: `content` holds the running value of
the variable, updated on every successful decode; the loop breaks at the
first decode with fewer than 10 replacement markers. -/
def tryEncodings (raw : List Nat) : List Enc → Option (List Nat) → Option (List Nat)
  | [], content => content
  | e :: rest, content =>
    match decode e raw with
    | none => tryEncodings raw rest content
    | some txt =>
      if countRepl txt < 10 then some txt else tryEncodings raw rest (some txt)

/-- The encoding resolver: final value of `content` after the loop. -/
def resolveContent (raw : List Nat) : Option (List Nat) :=
  tryEncodings raw (encodingsFor raw) none

/-- Sample filesystem used to exercise aggregation: one existing file. -/
def fsSample : Str → Option Doc :=
  fun q => if q == "good".data then some [[Row.mk true []]] else none

/-- A cell on which no classification rule fires is skipped by the scan. -/
theorem checkCell_skip (c : Str)
    (h : strip c = [] ∨ ':' ∈ strip c ∨
      (isdigitStr (strip c) = true ∧ (strip c).length = 4 ∧
        1900 ≤ digitsVal (strip c) ∧ digitsVal (strip c) ≤ 2100)) :
    checkCell c = none := by
  unfold checkCell
  by_cases h0 : ((strip c).isEmpty || (strip c).contains ':') = true
  · rw [if_pos h0]
  · rcases h with h | h | h
    · exact absurd (by simp [h]) h0
    · exact absurd (by simp [h]) h0
    · rw [if_neg h0, if_pos h]

/-- If every scanned cell is skipped, the place scan exhausts. -/
theorem placeScan_exhausts (pcells : List Str)
    (h : ∀ c ∈ pcells.drop 4, checkCell c = none) :
    placeScan pcells = none := by
  unfold placeScan
  rw [List.findSome?_eq_none_iff]
  intro x hx
  exact h x (List.mem_reverse.mp hx)

/-- When the scan exhausts and the team cell is non-empty, the classifier
emits the retired sentinel. -/
theorem classifyBlock_default (pcells : List Str)
    (hfirst : isdigitStr (strip (pcells.getD 0 [])) = true)
    (hteam : strip (pcells.getD 3 []) ≠ [])
    (hscan : placeScan pcells = none) :
    classifyBlock pcells = some (strip (pcells.getD 3 []), ruSoshel) := by
  have hne : ¬ (strip (pcells.getD 3 [])).isEmpty = true := by
    simpa [List.isEmpty_iff] using hteam
  unfold classifyBlock
  rw [if_neg (not_not_intro hfirst), hscan, if_pos hne]
  dsimp only
  rw [if_pos ⟨hne, by decide⟩]

/-- C1: in a participant block whose first cell is a digit string and whose
team cell (fixed offset 3) is non-empty, when every cell from the last
index down to index 4 is skipped by the scan — empty, containing a colon,
or a 4-digit number in [1900, 2100] (a birth year) — the place defaults to
the retired sentinel; in particular a lone birth-year cell such as "1998"
is never read as a numeric place. -/
theorem scan_default_retired (pcells : List Str)
    (hfirst : isdigitStr (strip (pcells.getD 0 [])) = true)
    (hteam : strip (pcells.getD 3 []) ≠ [])
    (hskip : ∀ c ∈ pcells.drop 4, strip c = [] ∨ ':' ∈ strip c ∨
      (isdigitStr (strip c) = true ∧ (strip c).length = 4 ∧
        1900 ≤ digitsVal (strip c) ∧ digitsVal (strip c) ≤ 2100)) :
    classifyBlock pcells = some (strip (pcells.getD 3 []), ruSoshel) := by
  refine classifyBlock_default pcells hfirst hteam ?_
  exact placeScan_exhausts pcells fun c hc => checkCell_skip c (hskip c hc)

/-- C1 witness: a block whose only scanned cell is the 4-digit cell "1998"
classifies as retired, not as place "1998". -/
theorem scan_default_retired_witness :
    classifyBlock [ "1".data, "25".data, "Иванов".data, "TeamX".data,
      "1998".data] = some ("TeamX".data, ruSoshel) :=
  scan_default_retired
    [ "1".data, "25".data, "Иванов".data, "TeamX".data, "1998".data]
    (by decide) (by decide) (by decide)

/-- C2 counterexample: a block containing the status cell "СОШЕЛ" (which
lower-cases to "сошел") together with a later numeric cell classifies with
that numeric place, not with the retired sentinel — "сошел" contains none
of the marker substrings, so the status cell itself never matches a rule. -/
theorem soshel_overridden_cex :
    pyLower (strip (( [ "1".data, "25".data, "Иванов".data, "TeamX".data,
        "СОШЕЛ".data, "5".data] : List Str).getD 4 [])) = "сошел".data ∧
    classifyBlock [ "1".data, "25".data, "Иванов".data, "TeamX".data,
      "СОШЕЛ".data, "5".data] = some ("TeamX".data, "5".data) ∧
    ("5".data : Str) ≠ ruSoshel := by
  refine ⟨by decide, by decide, by decide⟩

/-- C2 amended: the cell text "СОШЕЛ" matches no classification rule (in
particular, none of the marker substrings occur in its lower-casing), so a
block containing it is classified as retired exactly through the default
rule: first cell a digit string, non-empty team, and no cell in the scan
range matching any rule — a later matching cell overrides the status cell. -/
theorem soshel_default_retired :
    checkCell ("СОШЕЛ".data) = none ∧
    ∀ pcells : List Str,
      isdigitStr (strip (pcells.getD 0 [])) = true →
      strip (pcells.getD 3 []) ≠ [] →
      (∃ c ∈ pcells.drop 4, pyLower (strip c) = "сошел".data) →
      (∀ c ∈ pcells.drop 4, checkCell c = none) →
      classifyBlock pcells = some (strip (pcells.getD 3 []), ruSoshel) := by
  refine ⟨by decide, ?_⟩
  intro pcells hfirst hteam _hsoshel hnone
  exact classifyBlock_default pcells hfirst hteam (placeScan_exhausts pcells hnone)

/-- C2 amended witness: a block whose scan range holds only the cell
"СОШЕЛ" classifies as retired through the default rule. -/
theorem soshel_default_retired_witness :
    classifyBlock [ "1".data, "25".data, "Иванов".data, "TeamX".data,
      "СОШЕЛ".data] = some ("TeamX".data, ruSoshel) :=
  soshel_default_retired.2
    [ "1".data, "25".data, "Иванов".data, "TeamX".data, "СОШЕЛ".data]
    (by decide) (by decide) ⟨"СОШЕЛ".data, by decide, by decide⟩ (by decide)

/-- First-match characterisation of `find?` over an index range. -/
theorem find?_range'_first (p : Nat → Bool) :
    ∀ (n s i : Nat), s ≤ i → i < s + n → p i = true →
      (∀ j, s ≤ j → j < i → p j = false) →
      (List.range' s n).find? p = some i := by
  intro n
  induction n with
  | zero => intro s i h1 h2 _ _; omega
  | succ n ih =>
    intro s i h1 h2 hp hmin
    rw [List.range'_succ]
    by_cases hsi : i = s
    · subst hsi
      exact List.find?_cons_of_pos _ hp
    · have hps : p s = false := hmin s le_rfl (by omega)
      rw [List.find?_cons_of_neg _ (by simp [hps])]
      exact ih (s + 1) i (by omega) (by omega) hp
        (fun j hj1 hj2 => hmin j (by omega) hj2)

/-- Closed form of the step detector in terms of its `find?`. -/
theorem findStep_eq (cells : List Str) :
    findStep cells = ((List.range' 8 (min 15 cells.length - 8)).find?
      (fun i => strip (cells.getD i []) == ['2'])).getD 10 := by
  unfold findStep findStepP
  split
  · rename_i i heq
    conv_rhs => rw [heq]
    rfl
  · rename_i heq
    conv_rhs => rw [heq]
    rfl

/-- C3: the step equals the smallest index in [8, min(15, row length))
whose stripped cell text is "2", and defaults to 10 when no such index
exists. -/
theorem step_detection (cells : List Str) :
    ((∀ i, 8 ≤ i → i < min 15 cells.length →
        strip (cells.getD i []) ≠ ['2']) → findStep cells = 10) ∧
    (∀ i, 8 ≤ i → i < min 15 cells.length → strip (cells.getD i []) = ['2'] →
      (∀ j, 8 ≤ j → j < i → strip (cells.getD j []) ≠ ['2']) →
      findStep cells = i) := by
  constructor
  · intro hnone
    rw [findStep_eq]
    have hfind : (List.range' 8 (min 15 cells.length - 8)).find?
        (fun i => strip (cells.getD i []) == ['2']) = none := by
      rw [List.find?_eq_none]
      intro x hx
      have hb := List.mem_range'_1.mp hx
      simp only [beq_iff_eq]
      exact hnone x hb.1 (by omega)
    rw [hfind]
    rfl
  · intro i h8 hlt hp hmin
    rw [findStep_eq]
    have hfind := find?_range'_first (fun j => strip (cells.getD j []) == ['2'])
      (min 15 cells.length - 8) 8 i h8 (by omega) (by simpa using hp)
      (fun j hj1 hj2 => by
        simp only [beq_eq_false_iff_ne]
        exact hmin j hj1 hj2)
    rw [hfind]
    rfl

/-- C3 witness: a 32-cell row whose cell 11 is "2" (and cells 8-10 are
not) detects step 11. -/
theorem step_detection_witness :
    findStep ((List.range 32).map (fun i => if i = 11 then ['2'] else ['x'])) = 11 :=
  (step_detection _).2 11 (by decide) (by decide) (by decide)
    (by
      intro j hj1 hj2
      interval_cases j <;> decide)

/-- Characterisation of a successful `find?`: the found element satisfies
the predicate and everything before it fails it. -/
theorem find?_some_split {α : Type} (p : α → Bool) :
    ∀ l : List α, ∀ a, l.find? p = some a →
      p a = true ∧ ∃ pre suf, l = pre ++ a :: suf ∧ ∀ x ∈ pre, p x = false := by
  intro l
  induction l with
  | nil => intro a h; simp at h
  | cons b rest ih =>
    intro a h
    by_cases hb : p b = true
    · rw [List.find?_cons_of_pos _ hb] at h
      cases h
      exact ⟨hb, [], rest, rfl, by simp⟩
    · have hb' : p b = false := by simpa using hb
      rw [List.find?_cons_of_neg _ (by simp [hb'])] at h
      obtain ⟨hpa, pre, suf, heq, hall⟩ := ih a h
      refine ⟨hpa, b :: pre, suf, by rw [heq]; rfl, ?_⟩
      intro x hx
      rcases List.mem_cons.mp hx with hx | hx
      · subst hx; exact hb'
      · exact hall x hx

/-- C4: a table without a silver header row contributes nothing; a
qualifying table without a canonical data row contributes nothing (and
raises no error); and a found canonical data row is the first row in
document order with at least 10 cells whose first cell strips to "1". -/
theorem table_locator (t : List Row) :
    (tableQualifies t = false → tableResults t = []) ∧
    (tableQualifies t = true → findDataRow t = none → tableResults t = []) ∧
    (∀ r, findDataRow t = some r → isDataRow r = true ∧
      ∃ pre suf, t = pre ++ r :: suf ∧ ∀ x ∈ pre, isDataRow x = false) := by
  refine ⟨?_, ?_, ?_⟩
  · intro h
    unfold tableResults
    rw [if_neg (by simp [h])]
  · intro hq hnone
    unfold tableResults
    rw [if_pos hq, hnone]
  · intro r hr
    exact find?_some_split isDataRow t r hr

/-- C4 witness: a qualifying (silver) table with no canonical data row
contributes zero pairs. -/
theorem table_locator_witness :
    tableResults [ Row.mk true []] = [] :=
  (table_locator [ Row.mk true []]).2.1 (by decide) (by decide)

/-- Taking a positive-length slice preserves the first element. -/
theorem take_getD_zero {α : Type} (l : List α) (k : Nat) (d : α) (hk : 0 < k) :
    (l.take k).getD 0 d = l.getD 0 d := by
  cases l with
  | nil => simp
  | cons a rest =>
    cases k with
    | zero => omega
    | succ k => rfl

/-- A block whose first cell is not a pure digit string yields no pair. -/
theorem classifyBlock_not_digit (pcells : List Str)
    (h : isdigitStr (strip (pcells.getD 0 [])) = false) :
    classifyBlock pcells = none := by
  unfold classifyBlock
  rw [if_pos (by rw [h]; simp)]

/-- C6: segmentation stops when fewer than 4 cells remain, and a block
whose first cell is not a pure digit string contributes no pair while the
scan still advances by a full step (no exception: the loop is total). -/
theorem segment_misaligned (step : Nat) (hstep : 0 < step)
    (remaining : List Str) :
    (remaining.length < 4 → segmentLoop step hstep remaining = []) ∧
    (4 ≤ remaining.length →
      isdigitStr (strip (remaining.getD 0 [])) = false →
      segmentLoop step hstep remaining =
        segmentLoop step hstep (remaining.drop step)) := by
  constructor
  · intro h
    rw [segmentLoop]
    rw [dif_pos h]
  · intro hlen hdig
    have hblock : classifyBlock (remaining.take (min step remaining.length)) = none := by
      apply classifyBlock_not_digit
      rw [take_getD_zero _ _ _ (by omega)]
      exact hdig
    conv_lhs => rw [segmentLoop]
    rw [dif_neg (by omega), hblock]
    exact List.nil_append _

/-- C6 witness: a 5-cell tail whose first cell "x" is not numeric yields
the same result as skipping a full step, which here ends segmentation. -/
theorem segment_misaligned_witness :
    segmentLoop 10 (by omega) [ "x".data, [], [], [], []] =
      segmentLoop 10 (by omega) (([ "x".data, [], [], [], []] : List Str).drop 10) ∧
    segmentLoop 10 (by omega) (([ "x".data, [], [], [], []] : List Str).drop 10) = [] :=
  ⟨(segment_misaligned 10 (by omega) [ "x".data, [], [], [], []]).2
      (by decide) (by decide),
   (segment_misaligned 10 (by omega)
      (([ "x".data, [], [], [], []] : List Str).drop 10)).1 (by decide)⟩

/-- Removing a missing path from anywhere in the input list leaves the
extracted pair stream unchanged. -/
theorem processFiles_skip_missing (fs : Str → Option Doc) (p : Str)
    (hmiss : fs p = none) :
    ∀ l1 l2 : List Str,
      processFiles fs (l1 ++ p :: l2) = processFiles fs (l1 ++ l2) := by
  intro l1
  induction l1 with
  | nil =>
    intro l2
    simp only [List.nil_append]
    simp only [processFiles, hmiss]
  | cons q rest ih =>
    intro l2
    simp only [List.cons_append, processFiles]
    cases hq : fs q <;> simp [ih l2]

/-- C9: a path naming no existing file is skipped, and the final mapping
equals the mapping produced with that path omitted from the input list. -/
theorem missing_file_skipped (fs : Str → Option Doc) (p : Str)
    (hmiss : fs p = none) (l1 l2 : List Str) :
    processFiles fs (l1 ++ p :: l2) = processFiles fs (l1 ++ l2) ∧
    ∀ team, teamPlaces (processFiles fs (l1 ++ p :: l2)) team =
      teamPlaces (processFiles fs (l1 ++ l2)) team := by
  have h := processFiles_skip_missing fs p hmiss l1 l2
  exact ⟨h, fun team => by rw [h]⟩

/-- C9 witness: dropping a missing path from a two-path batch leaves the
extraction of the remaining file untouched. -/
theorem missing_file_skipped_witness :
    processFiles fsSample [ "missing".data, "good".data] =
      processFiles fsSample [ "good".data] :=
  (missing_file_skipped fsSample "missing".data (by decide)
    [] [ "good".data]).1

/-- The decode loop returns the first qualifying candidate's text, whatever
prefix of failing or low-quality candidates precedes it and whatever the
running `content` already holds. -/
theorem tryEncodings_first (raw : List Nat) (e : Enc) (txt : List Nat)
    (he : decode e raw = some txt) (hq : countRepl txt < 10) :
    ∀ l1 : List Enc,
      (∀ e2 ∈ l1, ∀ t2, decode e2 raw = some t2 → 10 ≤ countRepl t2) →
      ∀ (l2 : List Enc) (acc : Option (List Nat)),
        tryEncodings raw (l1 ++ e :: l2) acc = some txt := by
  intro l1
  induction l1 with
  | nil =>
    intro _ l2 acc
    simp only [List.nil_append, tryEncodings, he]
    rw [if_pos hq]
  | cons e2 rest ih =>
    intro hbad l2 acc
    simp only [List.cons_append, tryEncodings]
    cases h2 : decode e2 raw with
    | none => exact ih (fun x hx => hbad x (List.mem_cons_of_mem _ hx)) l2 acc
    | some t2 =>
      have hge : ¬ countRepl t2 < 10 := by
        have := hbad e2 (List.mem_cons_self _ _) t2 h2
        omega
      dsimp only
      rw [if_neg hge]
      exact ih (fun x hx => hbad x (List.mem_cons_of_mem _ hx)) l2 (some t2)

/-- C5: the resolver tries the declared encoding (if any) then the fixed
fallback order, and selects the first candidate that decodes without error
with fewer than 10 replacement markers. -/
theorem resolver_first_qualifying (raw : List Nat) (l1 l2 : List Enc) (e : Enc)
    (hsplit : encodingsFor raw = l1 ++ e :: l2)
    (hbad : ∀ e2 ∈ l1, ∀ t2, decode e2 raw = some t2 → 10 ≤ countRepl t2)
    (hgood : ∃ txt, decode e raw = some txt ∧ countRepl txt < 10) :
    resolveContent raw = decode e raw := by
  obtain ⟨txt, he, hq⟩ := hgood
  unfold resolveContent
  rw [hsplit, he]
  exact tryEncodings_first raw e txt he hq l1 hbad l2 none

/-- C5 witness: a buffer declaring charset windows-1251 and valid under
cp1251 is decoded with cp1251 (the declared candidate comes first). -/
theorem resolver_first_qualifying_witness :
    resolveContent (asciiCodes "<meta charset=windows-1251>") =
      decode Enc.cp1251 (asciiCodes "<meta charset=windows-1251>") :=
  resolver_first_qualifying (asciiCodes "<meta charset=windows-1251>")
    [] [ Enc.cp1251, Enc.utf8, Enc.koi8r, Enc.latin1] Enc.cp1251
    (by decide) (by simp)
    ⟨asciiCodes "<meta charset=windows-1251>", by decide, by decide⟩

/-- Once `content` has been set by a successful decode, the loop can never
return `none`. -/
theorem tryEncodings_some (raw : List Nat) :
    ∀ (l : List Enc) (t : List Nat), (tryEncodings raw l (some t)).isSome := by
  intro l
  induction l with
  | nil => intro t; rfl
  | cons e rest ih =>
    intro t
    simp only [tryEncodings]
    cases decode e raw with
    | none => exact ih t
    | some t2 =>
      dsimp only
      by_cases hq : countRepl t2 < 10
      · rw [if_pos hq]; rfl
      · rw [if_neg hq]; exact ih t2

/-- If some candidate decodes successfully the loop returns a text. -/
theorem tryEncodings_total (raw : List Nat) :
    ∀ l : List Enc, (∃ e ∈ l, (decode e raw).isSome) →
      ∀ acc, (tryEncodings raw l acc).isSome := by
  intro l
  induction l with
  | nil =>
    intro h acc
    obtain ⟨e, he, _⟩ := h
    simp at he
  | cons e2 rest ih =>
    intro h acc
    simp only [tryEncodings]
    cases h2 : decode e2 raw with
    | some t2 =>
      dsimp only
      by_cases hq : countRepl t2 < 10
      · rw [if_pos hq]; rfl
      · rw [if_neg hq]; exact tryEncodings_some raw rest t2
    | none =>
      obtain ⟨e, he, hsome⟩ := h
      rcases List.mem_cons.mp he with rfl | he2
      · rw [h2] at hsome; simp at hsome
      · exact ih ⟨e, he2, hsome⟩ acc

/-- Latin-1 decodes every byte buffer to itself. -/
theorem latin1_total (raw : List Nat) (h : ∀ b ∈ raw, b < 256) :
    decodeWith latin1DecodeByte raw = some raw := by
  induction raw with
  | nil => rfl
  | cons b rest ih =>
    simp only [decodeWith, latin1DecodeByte]
    rw [if_pos (h b (List.mem_cons_self b rest)),
      ih (fun x hx => h x (List.mem_cons_of_mem _ hx))]
    rfl

/-- C7: latin-1 is a total byte-to-codepoint mapping and sits in every
candidate list, so the resolver always produces some decoded text — the
"no decode succeeded" branch is unreachable. -/
theorem resolver_always_decodes (raw : List Nat)
    (hbytes : ∀ b ∈ raw, b < 256) :
    ∃ txt, resolveContent raw = some txt := by
  rw [← Option.isSome_iff_exists]
  unfold resolveContent
  apply tryEncodings_total
  refine ⟨Enc.latin1, ?_, ?_⟩
  · unfold encodingsFor
    cases declaredEnc raw <;> simp
  · rw [show decode Enc.latin1 raw = decodeWith latin1DecodeByte raw from rfl,
      latin1_total raw hbytes]
    rfl

/-- C7 witness: a buffer that no Cyrillic codec likes still resolves. -/
theorem resolver_always_decodes_witness :
    ∃ txt, resolveContent [ 152, 255, 0] = some txt :=
  resolver_always_decodes [ 152, 255, 0] (by decide)

/-- An unnumbered name's key carries its own lower-cased text. -/
theorem sort_key_unnumbered (a : Str) :
    (extract_sort_key a).1 = none → (extract_sort_key a).2 = pyLower a := by
  unfold extract_sort_key
  split
  · split
    · split
      · intro h
        simp at h
      · intro _
        rfl
    · intro _
      rfl
  · intro _
    rfl

/-- C8: numbered teams sort strictly before unnumbered teams, unnumbered
teams compare by lower-cased name, and the sample sort comes out as the
spec's example says. -/
theorem sort_key_ordering :
    (∀ a b : Str, (extract_sort_key a).1.isSome = true →
      (extract_sort_key b).1 = none →
      keyLe (extract_sort_key a) (extract_sort_key b) = true ∧
      keyLe (extract_sort_key b) (extract_sort_key a) = false) ∧
    (∀ a b : Str, (extract_sort_key a).1 = none →
      (extract_sort_key b).1 = none →
      keyLe (extract_sort_key a) (extract_sort_key b) =
        strLe (pyLower a) (pyLower b)) ∧
    sortTeams [ "3. Омега".data, "1. Альфа".data, "Бета".data] =
      [ "1. Альфа".data, "3. Омега".data, "Бета".data] := by
  refine ⟨?_, ?_, by decide⟩
  · intro a b ha hb
    obtain ⟨n, hn⟩ := Option.isSome_iff_exists.mp ha
    constructor
    · unfold keyLe
      rw [hn, hb]
      simp [numLt]
    · unfold keyLe
      rw [hn, hb]
      simp [numLt]
  · intro a b ha hb
    unfold keyLe
    rw [ha, hb, sort_key_unnumbered a ha, sort_key_unnumbered b hb]
    simp [numLt]

/-- C8 witness: a numbered and an unnumbered sample team order correctly. -/
theorem sort_key_ordering_witness :
    keyLe (extract_sort_key "1. Альфа".data) (extract_sort_key "Бета".data) = true ∧
    keyLe (extract_sort_key "Бета".data) (extract_sort_key "1. Альфа".data) = false :=
  sort_key_ordering.1 "1. Альфа".data "Бета".data (by decide) (by decide)

/-- The greedy digit prefix of `<digits>.<rest>` is exactly the digits. -/
theorem takeWhile_digits (ds : Str) (hdig : ∀ c ∈ ds, c.isDigit = true) :
    ∀ r : Str, (ds ++ '.' :: r).takeWhile Char.isDigit = ds := by
  induction ds with
  | nil =>
    intro r
    simp [List.takeWhile_cons]
  | cons c rest ih =>
    intro r
    simp only [List.cons_append, List.takeWhile_cons]
    rw [hdig c (List.mem_cons_self _ _)]
    simp only [if_pos]
    rw [ih (fun x hx => hdig x (List.mem_cons_of_mem _ hx)) r]

/-- The last element of a list is a member. -/
theorem getLast?_mem_self {α : Type} :
    ∀ (l : List α) (c : α), l.getLast? = some c → c ∈ l := by
  intro l
  induction l with
  | nil =>
    intro c h
    simp at h
  | cons a t ih =>
    intro c h
    cases t with
    | nil =>
      simp only [List.getLast?_singleton, Option.some.injEq] at h
      simp [h]
    | cons b t2 =>
      rw [List.getLast?_cons_cons] at h
      exact List.mem_cons_of_mem _ (ih c h)

/-- The regex tail match succeeds verbatim on a nonempty remainder that
starts with a non-whitespace character and holds no newline. -/
theorem restMatch_nows (r : Str) (hr : r ≠ []) (hnl : '\n' ∉ r)
    (hws : isWs (r.getD 0 '\n') = false) :
    restMatch r = some r := by
  have hbeq : (r.getLast? == some '\n') = false := by
    rw [beq_eq_false_iff_ne]
    intro h
    exact hnl (getLast?_mem_self r '\n' h)
  have hem : r.isEmpty = false := by
    simpa [List.isEmpty_iff] using hr
  have htw : r.takeWhile isWs = [] := by
    cases r with
    | nil => rfl
    | cons a t =>
      rw [List.getD_cons_zero] at hws
      rw [List.takeWhile_cons, hws]
      rfl
  have hcon : r.contains '\n' = false := by
    rcases h : r.contains '\n' with _ | _
    · rfl
    · exact absurd (by simpa using h) hnl
  unfold restMatch
  rw [hbeq]
  simp only [Bool.false_eq_true, if_false]
  rw [if_neg (by simp [hem])]
  rw [htw, List.length_nil, Nat.min_eq_left (Nat.zero_le _), List.drop_zero, hcon]
  rfl

/-- C10: whitespace after the period is optional — `<digits>.<rest>` with a
non-blank rest gets the numbered key — while a bare `<digits>.` with empty
rest falls back to the unnumbered key. -/
theorem sort_key_nospace (ds r : Str) (hds : ds ≠ [])
    (hdig : ∀ c ∈ ds, c.isDigit = true) :
    (r ≠ [] → ('\n' ∉ r) → isWs (r.getD 0 '\n') = false →
      extract_sort_key (ds ++ '.' :: r) = (some (digitsVal ds), pyLower r)) ∧
    extract_sort_key (ds ++ [ '.']) = (none, pyLower (ds ++ [ '.'])) := by
  have hem : ds.isEmpty = false := by
    simpa [List.isEmpty_iff] using hds
  constructor
  · intro hr hnl hws
    unfold extract_sort_key
    rw [takeWhile_digits ds hdig r, List.drop_left]
    dsimp only
    rw [if_pos ⟨rfl, by simp [hem]⟩, restMatch_nows r hr hnl hws]
  · unfold extract_sort_key
    rw [show (ds ++ [ '.']) = ds ++ '.' :: [] from rfl,
      takeWhile_digits ds hdig [], List.drop_left]
    dsimp only
    rw [if_pos ⟨rfl, by simp [hem]⟩]
    rfl

/-- C10 witness: "12.Команда" (no space) is numbered 12; "12." is not. -/
theorem sort_key_nospace_witness :
    extract_sort_key ("12".data ++ '.' :: "Команда".data) =
      (some (digitsVal "12".data), pyLower "Команда".data) ∧
    extract_sort_key ("12".data ++ [ '.']) =
      (none, pyLower ("12".data ++ [ '.'])) :=
  ⟨(sort_key_nospace "12".data "Команда".data (by decide) (by decide)).1
      (by decide) (by decide) (by decide),
   (sort_key_nospace "12".data "Команда".data (by decide) (by decide)).2⟩
